import Mathlib

/-!
Verification of the tyto BitTorrent tracker core (src/bittorrent.rs,
src/storage/mod.rs, src/network/mod.rs, src/network/middleware/mod.rs,
src/statistics.rs, src/bencode.rs) against its natural-language
specification.

Byte strings (Rust `String` / `&[u8]` values) are modelled as `List Nat`
(each entry one byte).  Rust `u32`/`u16` values are modelled as `Nat` with
an explicit `% 2 ^ 32` (resp. `% 2 ^ 16`) where the source can overflow;
`saturating_sub` is Nat truncated subtraction.  `HashSet<Peer>` (whose
`Hash`/`Eq` use only `(peer_id, ip, port)`) is modelled as a `List Peer`
with the hashbrown operation semantics (`insert` keeps the old element,
`replace` substitutes the new one, `take` removes and returns it);
`HashMap<String, _>` is modelled as an association list.  Randomness
(`rand::seq::SliceRandom::choose_multiple`) is modelled by parametrising
over a permutation of the sampled list.  A Rust panic is modelled as
`Option.none` in the function result.
-/

namespace Tyto

/-- The bytes of an ASCII string literal, used to write concrete inputs. -/
def asciiBytes (s : String) : List Nat :=
  s.data.map Char.toNat

/-! ## Peers (src/bittorrent.rs) -/

/-- `struct Peerv4 { peer_id: String, ip: Ipv4Addr, port: u16, last_announced: Instant }`.
The IPv4 address is its `u32` numeric value; `Instant` is an abstract tick count. -/
structure Peerv4 where
  peer_id : List Nat
  ip : Nat
  port : Nat
  last_announced : Nat
  deriving DecidableEq, Repr

/-- `struct Peerv6 { peer_id: String, ip: Ipv6Addr, port: u16, last_announced: Instant }`. -/
structure Peerv6 where
  peer_id : List Nat
  ip : Nat
  port : Nat
  last_announced : Nat
  deriving DecidableEq, Repr

/-- `enum Peer { V4(Peerv4), V6(Peerv6) }`. -/
inductive Peer where
  | V4 (p : Peerv4)
  | V6 (p : Peerv6)
  deriving DecidableEq, Repr

/-- The custom `PartialEq` from src/bittorrent.rs lines 82-92: two peers are
equal when their variants agree and `peer_id`, `ip` and `port` agree;
`last_announced` is not compared. -/
def Peer.peerEq : Peer → Peer → Bool
  | .V4 a, .V4 b => a.peer_id = b.peer_id && a.ip = b.ip && a.port = b.port
  | .V6 a, .V6 b => a.peer_id = b.peer_id && a.ip = b.ip && a.port = b.port
  | _, _ => false

/-- The identity triple (plus variant tag) that `Hash`/`PartialEq` use. -/
def Peer.key : Peer → Bool × List Nat × Nat × Nat
  | .V4 a => (false, a.peer_id, a.ip, a.port)
  | .V6 a => (true, a.peer_id, a.ip, a.port)

/-- The data fed to the hasher by the custom `Hash` impls (lines 66-80):
the enum discriminant (from the derived enum `Hash`) and exactly
`peer_id`, `ip`, `port`; `last_announced` is not hashed. -/
def Peer.hashFields : Peer → Bool × List Nat × Nat × Nat :=
  Peer.key

/-- Accessor for the timestamp regardless of variant. -/
def Peer.last_announced : Peer → Nat
  | .V4 a => a.last_announced
  | .V6 a => a.last_announced

theorem Peer.peerEq_iff_key {a b : Peer} : Peer.peerEq a b = true ↔ a.key = b.key := by
  cases a <;> cases b <;>
    simp [Peer.peerEq, Peer.key, and_assoc]

theorem Peer.peerEq_symm {a b : Peer} (h : Peer.peerEq a b = true) :
    Peer.peerEq b a = true := by
  rw [Peer.peerEq_iff_key] at h ⊢
  exact h.symm

/-! ## HashSet<Peer> operation model

A `hashbrown::HashSet<Peer>` holds at most one element of each identity
key; it is modelled as the list of its elements.  `insert` keeps the old
element when an equal one is present, `replace` removes the equal element
and adds the new one, `take` removes and returns the equal element
(implemented with `filter`, which agrees because the set holds at most
one equal element), `remove` deletes it. -/

def hsContains (l : List Peer) (p : Peer) : Bool :=
  l.any (fun q => Peer.peerEq p q)

def hsInsert (l : List Peer) (p : Peer) : List Peer :=
  if hsContains l p then l else p :: l

def hsReplace (l : List Peer) (p : Peer) : List Peer :=
  p :: l.filter (fun q => !Peer.peerEq p q)

def hsRemove (l : List Peer) (p : Peer) : List Peer :=
  l.filter (fun q => !Peer.peerEq p q)

def hsTake (l : List Peer) (p : Peer) : Option Peer × List Peer :=
  match l.find? (fun q => Peer.peerEq p q) with
  | some q => (some q, l.filter (fun r => !Peer.peerEq p r))
  | none => (none, l)

/-! ## Swarm (src/storage/mod.rs lines 145-203) -/

/-- `struct Swarm { seeders: HashSet<Peer>, leechers: HashSet<Peer> }`. -/
structure Swarm where
  seeders : List Peer
  leechers : List Peer
  deriving DecidableEq, Repr

def Swarm.new : Swarm :=
  { seeders := [], leechers := [] }

def Swarm.add_seeder (sw : Swarm) (p : Peer) : Swarm :=
  { sw with seeders := hsInsert sw.seeders p }

def Swarm.add_leecher (sw : Swarm) (p : Peer) : Swarm :=
  { sw with leechers := hsInsert sw.leechers p }

/-- `update_seeder`: `if self.seeders.contains(&peer) { self.seeders.replace(peer); }`. -/
def Swarm.update_seeder (sw : Swarm) (p : Peer) : Swarm :=
  if hsContains sw.seeders p then { sw with seeders := hsReplace sw.seeders p } else sw

def Swarm.update_leecher (sw : Swarm) (p : Peer) : Swarm :=
  if hsContains sw.leechers p then { sw with leechers := hsReplace sw.leechers p } else sw

def Swarm.remove_seeder (sw : Swarm) (p : Peer) : Swarm :=
  { sw with seeders := hsRemove sw.seeders p }

def Swarm.remove_leecher (sw : Swarm) (p : Peer) : Swarm :=
  { sw with leechers := hsRemove sw.leechers p }

/-- `promote_leecher`: take the peer out of leechers and insert the taken
element (with its old timestamp) into seeders; if it was not a leecher,
insert the argument peer into seeders. -/
def Swarm.promote_leecher (sw : Swarm) (p : Peer) : Swarm :=
  match hsTake sw.leechers p with
  | (some leecher, rest) => { seeders := hsInsert sw.seeders leecher, leechers := rest }
  | (none, _) => { sw with seeders := hsInsert sw.seeders p }

/-! ## HashMap<String, _> model -/

def hmGet {α : Type} : List (List Nat × α) → List Nat → Option α
  | [], _ => none
  | kv :: rest, h => if kv.1 = h then some kv.2 else hmGet rest h

/-- Model of `get_mut` followed by an in-place mutation: every entry whose
key matches is updated (a `HashMap` has at most one). -/
def hmUpdate {α : Type} (m : List (List Nat × α)) (h : List Nat) (f : α → α) :
    List (List Nat × α) :=
  m.map (fun kv => if kv.1 = h then (kv.1, f kv.2) else kv)

theorem hmUpdate_cons {α : Type} (kv : List Nat × α) (rest : List (List Nat × α))
    (h : List Nat) (f : α → α) :
    hmUpdate (kv :: rest) h f =
      (if kv.1 = h then (kv.1, f kv.2) else kv) :: hmUpdate rest h f := rfl

theorem hmGet_hmUpdate {α : Type} (m : List (List Nat × α)) (h h' : List Nat) (f : α → α) :
    hmGet (hmUpdate m h f) h' =
      if h' = h then (hmGet m h').map f else hmGet m h' := by
  induction m with
  | nil => simp [hmGet, hmUpdate]
  | cons kv rest ih =>
    rw [hmUpdate_cons]
    by_cases hk : kv.1 = h
    · by_cases hk2 : kv.1 = h'
      · simp [hmGet, hk, hk2, hk2.symm.trans hk]
      · have hne : ¬ h' = h := fun e => hk2 (hk.trans e.symm)
        have hne2 : ¬ h = h' := fun e => hne e.symm
        simp [hmGet, hk, hk2, ih, hne, hne2]
    · by_cases hk2 : kv.1 = h'
      · have hne : ¬ h' = h := fun e => hk (hk2.trans e)
        simp [hmGet, hk, hk2, hne]
      · simp [hmGet, hk, hk2, ih]

/-! ## PeerStore (src/storage/mod.rs lines 210-294) -/

def PeerStore := List (List Nat × Swarm)

def PeerStore.put_seeder (st : PeerStore) (h : List Nat) (p : Peer) : PeerStore :=
  match hmGet st h with
  | some _ => hmUpdate st h (fun sw => sw.add_seeder p)
  | none => (h, Swarm.new.add_seeder p) :: st

def PeerStore.put_leecher (st : PeerStore) (h : List Nat) (p : Peer) : PeerStore :=
  match hmGet st h with
  | some _ => hmUpdate st h (fun sw => sw.add_leecher p)
  | none => (h, Swarm.new.add_leecher p) :: st

def PeerStore.remove_seeder (st : PeerStore) (h : List Nat) (p : Peer) : PeerStore :=
  hmUpdate st h (fun sw => sw.remove_seeder p)

def PeerStore.remove_leecher (st : PeerStore) (h : List Nat) (p : Peer) : PeerStore :=
  hmUpdate st h (fun sw => sw.remove_leecher p)

def PeerStore.promote_leecher (st : PeerStore) (h : List Nat) (p : Peer) : PeerStore :=
  hmUpdate st h (fun sw => sw.promote_leecher p)

/-- `update_peer`: `sw.update_seeder(peer.clone()); sw.update_leecher(peer);`. -/
def PeerStore.update_peer (st : PeerStore) (h : List Nat) (p : Peer) : PeerStore :=
  hmUpdate st h (fun sw => (sw.update_seeder p).update_leecher p)

/-! ## Torrents (src/storage/mod.rs lines 39-143) -/

/-- `struct Torrent { info_hash, complete, downloaded, incomplete, balance }` (u32 fields). -/
structure Torrent where
  info_hash : List Nat
  complete : Nat
  downloaded : Nat
  incomplete : Nat
  balance : Nat
  deriving DecidableEq, Repr

def TorrentStore := List (List Nat × Torrent)

/-- `get_announce_stats`: `(complete, incomplete)` of the row, `(0, 0)` if absent. -/
def TorrentStore.get_announce_stats (ts : TorrentStore) (h : List Nat) : Nat × Nat :=
  match hmGet ts h with
  | some t => (t.complete, t.incomplete)
  | none => (0, 0)

/-- `new_seed` (lines 122-128): if the row exists, `complete += 1` and
`incomplete = incomplete.saturating_sub(1)`.  The `downloaded` field is
not touched by the source. -/
def TorrentStore.new_seed (ts : TorrentStore) (h : List Nat) : TorrentStore :=
  hmUpdate ts h (fun t =>
    { t with complete := (t.complete + 1) % 2 ^ 32, incomplete := t.incomplete - 1 })

/-- `new_leech` (lines 130-135): if the row exists, `incomplete += 1`. -/
def TorrentStore.new_leech (ts : TorrentStore) (h : List Nat) : TorrentStore :=
  hmUpdate ts h (fun t => { t with incomplete := (t.incomplete + 1) % 2 ^ 32 })

/-! ## Global statistics (src/statistics.rs) -/

/-- `struct GlobalStatistics` without the `start_time` clock field. -/
structure GlobalStatistics where
  total_seeders : Nat
  total_leechers : Nat
  announce_requests : Nat
  succ_announces : Nat
  scrapes : Nat
  deriving DecidableEq, Repr

def GlobalStatistics.add_seed (s : GlobalStatistics) : GlobalStatistics :=
  { s with total_seeders := (s.total_seeders + 1) % 2 ^ 32 }

def GlobalStatistics.add_leech (s : GlobalStatistics) : GlobalStatistics :=
  { s with total_leechers := (s.total_leechers + 1) % 2 ^ 32 }

/-- `sub_seed` (src/statistics.rs lines 56-58):
`self.total_leechers = self.total_seeders.saturating_sub(1);` — the
assignment target is `total_leechers` while the decremented source value
is `total_seeders`, which itself is left unchanged. -/
def GlobalStatistics.sub_seed (s : GlobalStatistics) : GlobalStatistics :=
  { s with total_leechers := s.total_seeders - 1 }

def GlobalStatistics.sub_leech (s : GlobalStatistics) : GlobalStatistics :=
  { s with total_leechers := s.total_leechers - 1 }

def GlobalStatistics.promote_leech (s : GlobalStatistics) : GlobalStatistics :=
  { s with total_leechers := s.total_leechers - 1,
           total_seeders := (s.total_seeders + 1) % 2 ^ 32 }

/-! ## Bencode encoder (src/bencode.rs) -/

/-- Decimal digits of a number, as bytes. -/
def decBytes (n : Nat) : List Nat :=
  asciiBytes (toString n)

/-- `i<n>e`. -/
def benInt (n : Nat) : List Nat :=
  105 :: decBytes n ++ [101]

/-- `<len>:<bytes>`. -/
def benBytes (s : List Nat) : List Nat :=
  decBytes s.length ++ 58 :: s

/-! ## Announce responses (src/bittorrent.rs lines 252-306) -/

structure AnnounceResponse where
  failure_reason : Option (List Nat)
  interval : Nat
  min_interval : Option Nat
  tracker_id : List Nat
  complete : Nat
  incomplete : Nat
  peers : List Peerv4
  peers6 : List Peerv6
  deriving DecidableEq, Repr

/-- `AnnounceResponse::failure`: failure reason plus `Default` fields. -/
def AnnounceResponse.failure (reason : List Nat) : AnnounceResponse :=
  { failure_reason := some reason, interval := 0, min_interval := none, tracker_id := [],
    complete := 0, incomplete := 0, peers := [], peers6 := [] }

def AnnounceResponse.new (interval complete incomplete : Nat)
    (peers : List Peerv4) (peers6 : List Peerv6) : AnnounceResponse :=
  { failure_reason := none, interval := interval, min_interval := none, tracker_id := [],
    complete := complete, incomplete := incomplete, peers := peers, peers6 := peers6 }

/-- Big-endian bytes of `n`, `width` bytes wide. -/
def beBytes (width n : Nat) : List Nat :=
  (List.range width).map (fun i => n / 256 ^ (width - 1 - i) % 256)

/-- `Compact for Peerv4`: 4 address bytes then 2 port bytes, big-endian. -/
def Peerv4.compact (p : Peerv4) : List Nat :=
  beBytes 4 p.ip ++ beBytes 2 p.port

/-- `Compact for Peerv6` (BEP 07): 16 address bytes then 2 port bytes. -/
def Peerv6.compact (p : Peerv6) : List Nat :=
  beBytes 16 p.ip ++ beBytes 2 p.port

def AnnounceResponse.peersv4_as_compact (r : AnnounceResponse) : List Nat :=
  (r.peers.map Peerv4.compact).flatten

def AnnounceResponse.peersv6_as_compact (r : AnnounceResponse) : List Nat :=
  (r.peers6.map Peerv6.compact).flatten

/-- `ToBencode for AnnounceResponse`: a failure encodes as a dict holding
only `failure_reason`; a success emits `complete`, `incomplete`,
`interval`, optional `min_interval`, `peers`, `peers6`, `tracker_id`. -/
def encode_announce_response (r : AnnounceResponse) : List Nat :=
  match r.failure_reason with
  | some reason =>
    100 :: (benBytes (asciiBytes "failure_reason") ++ benBytes reason) ++ [101]
  | none =>
    100 :: (benBytes (asciiBytes "complete") ++ benInt r.complete
      ++ benBytes (asciiBytes "incomplete") ++ benInt r.incomplete
      ++ benBytes (asciiBytes "interval") ++ benInt r.interval
      ++ (match r.min_interval with
          | some m => benBytes (asciiBytes "min_interval") ++ benInt m
          | none => [])
      ++ benBytes (asciiBytes "peers") ++ benBytes r.peersv4_as_compact
      ++ benBytes (asciiBytes "peers6") ++ benBytes r.peersv6_as_compact
      ++ benBytes (asciiBytes "tracker_id") ++ benBytes r.tracker_id) ++ [101]

/-! ## Scrapes (src/bittorrent.rs lines 308-365, src/bencode.rs) -/

structure ScrapeFile where
  info_hash : List Nat
  complete : Nat
  downloaded : Nat
  incomplete : Nat
  name : Option (List Nat)
  deriving DecidableEq, Repr

/-- `ToBencode for ScrapeFile`: `complete`, `downloaded`, `incomplete`,
optional `name` (the `info_hash` field is the outer dict key). -/
def ScrapeFile.encode (f : ScrapeFile) : List Nat :=
  100 :: (benBytes (asciiBytes "complete") ++ benInt f.complete
    ++ benBytes (asciiBytes "downloaded") ++ benInt f.downloaded
    ++ benBytes (asciiBytes "incomplete") ++ benInt f.incomplete
    ++ (match f.name with
        | some n => benBytes (asciiBytes "name") ++ benBytes n
        | none => [])) ++ [101]

structure ScrapeResponse where
  failure_reason : Option (List Nat)
  files : List (List Nat × ScrapeFile)
  deriving DecidableEq, Repr

def ScrapeResponse.failure (reason : List Nat) : ScrapeResponse :=
  { failure_reason := some reason, files := [] }

/-- `ScrapeResponse::add_file`: `HashMap::insert`, replacing any entry with
the same key. -/
def ScrapeResponse.add_file (r : ScrapeResponse) (h : List Nat) (f : ScrapeFile) :
    ScrapeResponse :=
  { r with files := (h, f) :: r.files.filter (fun kv => !(kv.1 = h : Bool)) }

/-- Byte-lexicographic order, used because bendy emits dict keys sorted. -/
def bytesLe : List Nat → List Nat → Bool
  | [], _ => true
  | _ :: _, [] => false
  | x :: xs, y :: ys => if x < y then true else if y < x then false else bytesLe xs ys

def insertSortedFile (kv : List Nat × ScrapeFile) :
    List (List Nat × ScrapeFile) → List (List Nat × ScrapeFile)
  | [] => [kv]
  | x :: xs => if bytesLe kv.1 x.1 then kv :: x :: xs else x :: insertSortedFile kv xs

def sortFiles : List (List Nat × ScrapeFile) → List (List Nat × ScrapeFile)
  | [] => []
  | x :: xs => insertSortedFile x (sortFiles xs)

/-- `ToBencode for ScrapeResponse` (src/bencode.rs lines 61-73): the dict
emitted holds ONLY the `files` key; the `failure_reason` field is never
emitted by this impl. -/
def encode_scrape_response (r : ScrapeResponse) : List Nat :=
  100 :: (benBytes (asciiBytes "files")
    ++ (100 :: ((sortFiles r.files).map (fun kv => benBytes kv.1 ++ kv.2.encode)).flatten ++ [101]))
    ++ [101]

/-- `ScrapeRequest::new`: collect repeated `info_hash` values; any other
key yields the bencoded "Malformed scrape request" failure. -/
def scrapeHashes : List (List Nat × List Nat) → Except ScrapeResponse (List (List Nat))
  | [] => .ok []
  | (k, v) :: rest =>
    if k = asciiBytes "info_hash" then
      match scrapeHashes rest with
      | .ok hs => .ok (v :: hs)
      | .error e => .error e
    else .error (ScrapeResponse.failure (asciiBytes "Malformed scrape request"))

def ScrapeRequest.new (query : List (List Nat × List Nat)) :
    Except ScrapeResponse (List (List Nat)) :=
  scrapeHashes query

/-- `get_scrapes`: for each hash with a row, emit its `ScrapeFile`; absent
hashes are omitted. -/
def TorrentStore.get_scrapes (ts : TorrentStore) (hashes : List (List Nat)) :
    List ScrapeFile :=
  hashes.filterMap (fun h => (hmGet ts h).map (fun t =>
    { info_hash := h, complete := t.complete, downloaded := t.downloaded,
      incomplete := t.incomplete, name := none }))

structure Stores where
  peer_store : PeerStore
  torrent_store : TorrentStore

/-- `parse_scrape` (src/network/mod.rs lines 139-159): parse, look up, add
each file, encode; the `Err` branch encodes the failure `ScrapeResponse`. -/
def parse_scrape (data : Stores) (query : List (List Nat × List Nat)) : List Nat :=
  match ScrapeRequest.new query with
  | .ok hashes =>
    let files := data.torrent_store.get_scrapes hashes
    let resp := files.foldl (fun r f => r.add_file f.info_hash f)
      { failure_reason := none, files := [] }
    encode_scrape_response resp
  | .error failure => encode_scrape_response failure

/-! ## Announce request parsing (src/bittorrent.rs lines 109-248) -/

inductive Event where
  | started
  | stopped
  | completed
  | none
  deriving DecidableEq, Repr

/-- `string_to_event` (src/util.rs): unknown strings map to `None`. -/
def string_to_event (s : List Nat) : Event :=
  if s = asciiBytes "started" then .started
  else if s = asciiBytes "stopped" then .stopped
  else if s = asciiBytes "completed" then .completed
  else .none

def isDigit (c : Nat) : Bool :=
  48 ≤ c && c ≤ 57

def digitsVal (s : List Nat) : Nat :=
  s.foldl (fun acc c => acc * 10 + (c - 48)) 0

/-- `str::parse` for an unsigned integer type with maximum `bound`
(optional leading `+`, at least one digit, value in range). -/
def parseUInt (bound : Nat) (s : List Nat) : Option Nat :=
  let t := match s with
    | 43 :: rest => rest
    | _ => s
  if !t.isEmpty && t.all isDigit then
    if digitsVal t ≤ bound then some (digitsVal t) else none
  else none

def hexVal (c : Nat) : Option Nat :=
  if 48 ≤ c && c ≤ 57 then some (c - 48)
  else if 65 ≤ c && c ≤ 70 then some (c - 55)
  else if 97 ≤ c && c ≤ 102 then some (c - 87)
  else none

/-- `percent_encoding::percent_decode`: `%hh` becomes the byte; a `%` not
followed by two hex digits passes through unchanged. -/
def percentDecode : List Nat → List Nat
  | [] => []
  | 37 :: h1 :: h2 :: rest =>
    match hexVal h1, hexVal h2 with
    | some a, some b => (16 * a + b) :: percentDecode rest
    | _, _ => 37 :: percentDecode (h1 :: h2 :: rest)
  | c :: rest => c :: percentDecode rest

def isCont (c : Nat) : Bool :=
  128 ≤ c && c ≤ 191

/-- UTF-8 validity of a byte sequence (`decode_utf8` succeeds iff this). -/
def utf8Valid : List Nat → Bool
  | [] => true
  | c :: rest =>
    if c ≤ 127 then utf8Valid rest
    else if 194 ≤ c && c ≤ 223 then
      match rest with
      | c1 :: rest2 => isCont c1 && utf8Valid rest2
      | [] => false
    else if c = 224 then
      match rest with
      | c1 :: c2 :: rest2 => (160 ≤ c1 && c1 ≤ 191) && isCont c2 && utf8Valid rest2
      | _ => false
    else if (225 ≤ c && c ≤ 236 && c ≠ 237) || c = 238 || c = 239 then
      match rest with
      | c1 :: c2 :: rest2 => isCont c1 && isCont c2 && utf8Valid rest2
      | _ => false
    else if c = 237 then
      match rest with
      | c1 :: c2 :: rest2 => (128 ≤ c1 && c1 ≤ 159) && isCont c2 && utf8Valid rest2
      | _ => false
    else if c = 240 then
      match rest with
      | c1 :: c2 :: c3 :: rest2 =>
        (144 ≤ c1 && c1 ≤ 191) && isCont c2 && isCont c3 && utf8Valid rest2
      | _ => false
    else if 241 ≤ c && c ≤ 243 then
      match rest with
      | c1 :: c2 :: c3 :: rest2 => isCont c1 && isCont c2 && isCont c3 && utf8Valid rest2
      | _ => false
    else if c = 244 then
      match rest with
      | c1 :: c2 :: c3 :: rest2 =>
        (128 ≤ c1 && c1 ≤ 143) && isCont c2 && isCont c3 && utf8Valid rest2
      | _ => false
    else false

inductive IpAddr where
  | V4 (n : Nat)
  | V6 (n : Nat)
  deriving DecidableEq, Repr

/-- Split a byte list at a separator byte (like `str::split`). -/
def splitOn (sep : Nat) : List Nat → List (List Nat)
  | [] => [[]]
  | c :: rest =>
    let r := splitOn sep rest
    if c = sep then [] :: r
    else
      match r with
      | h :: t => (c :: h) :: t
      | [] => [[c]]

/-- One dotted-quad octet: digits only, `≤ 255`, and (as the std parser
requires) no redundant leading zero. -/
def parseOctet (s : List Nat) : Option Nat :=
  if !s.isEmpty && s.all isDigit && (s.length = 1 || !(s.headD 0 = 48 : Bool)) then
    if digitsVal s ≤ 255 then some (digitsVal s) else none
  else none

def parseIpv4 (s : List Nat) : Option Nat :=
  match (splitOn 46 s).mapM parseOctet with
  | some [a, b, c, d] => some (((a * 256 + b) * 256 + c) * 256 + d)
  | _ => none

def parseHexGroup (s : List Nat) : Option Nat :=
  if !s.isEmpty && s.length ≤ 4 then
    (s.mapM hexVal).map (fun ds => ds.foldl (fun acc d => acc * 16 + d) 0)
  else none

/-- Model of the std `IpAddr` textual parser, restricted to dotted-quad
IPv4 and full (eight-group, non-abbreviated) IPv6 forms; the claims only
exercise dotted-quad addresses. -/
def parseIpv6 (s : List Nat) : Option Nat :=
  match (splitOn 58 s).mapM parseHexGroup with
  | some gs =>
    if gs.length = 8 then some (gs.foldl (fun acc g => acc * 65536 + g) 0) else none
  | none => none

def parseIpAddr (s : List Nat) : Option IpAddr :=
  match parseIpv4 s with
  | some v => some (.V4 v)
  | none =>
    match parseIpv6 s with
    | some v => some (.V6 v)
    | none => none

structure AnnounceRequest where
  info_hash : List Nat
  peer : Peer
  port : Nat
  uploaded : Nat
  downloaded : Nat
  left : Nat
  compact : Bool
  no_peer_id : Bool
  event : Event
  ip : Option IpAddr
  numwant : Option Nat
  key : Option (List Nat)
  trackerid : Option (List Nat)
  deriving DecidableEq, Repr

/-- The mutable locals of `AnnounceRequest::new` before the loop. -/
structure AnnParams where
  info_hash : List Nat
  peer_string : List Nat
  port : Nat
  uploaded : Nat
  downloaded : Nat
  left : Nat
  compact : Bool
  no_peer_id : Bool
  event : Event
  ip : Option IpAddr
  numwant : Option Nat
  key : Option (List Nat)
  trackerid : Option (List Nat)
  deriving DecidableEq, Repr

def AnnParams.init : AnnParams :=
  { info_hash := [], peer_string := [], port := 0, uploaded := 0, downloaded := 0,
    left := 0, compact := false, no_peer_id := false, event := .none, ip := none,
    numwant := none, key := none, trackerid := none }

def malformed : AnnounceResponse :=
  AnnounceResponse.failure (asciiBytes "Malformed request")

/-- The arms of the source's `match k.as_str()` dispatch. -/
inductive ParamKey where
  | info_hash
  | peer_id
  | port
  | uploaded
  | downloaded
  | left
  | compact
  | no_peer_id
  | event
  | ip
  | numwant
  | key
  | trackerid
  | other
  deriving DecidableEq, Repr

def classifyKey (k : List Nat) : ParamKey :=
  if k = asciiBytes "info_hash" then .info_hash
  else if k = asciiBytes "peer_id" then .peer_id
  else if k = asciiBytes "port" then .port
  else if k = asciiBytes "uploaded" then .uploaded
  else if k = asciiBytes "downloaded" then .downloaded
  else if k = asciiBytes "left" then .left
  else if k = asciiBytes "compact" then .compact
  else if k = asciiBytes "no_peer_id" then .no_peer_id
  else if k = asciiBytes "event" then .event
  else if k = asciiBytes "ip" then .ip
  else if k = asciiBytes "numwant" then .numwant
  else if k = asciiBytes "key" then .key
  else if k = asciiBytes "trackerid" then .trackerid
  else .other

/-- One iteration of the `for (k, value) in request_kv_pairs` loop of
`AnnounceRequest::new` (src/bittorrent.rs lines 147-195), a `match` on
the key string. -/
def applyParam (acc : AnnParams) (k v : List Nat) : Except AnnounceResponse AnnParams :=
  match classifyKey k with
  | .info_hash =>
    let d := percentDecode v
    if utf8Valid d then .ok { acc with info_hash := d } else .error malformed
  | .peer_id => .ok { acc with peer_string := v }
  | .port =>
    match parseUInt 65535 v with
    | some n => .ok { acc with port := n }
    | none => .error malformed
  | .uploaded =>
    match parseUInt 4294967295 v with
    | some n => .ok { acc with uploaded := n }
    | none => .error malformed
  | .downloaded =>
    match parseUInt 4294967295 v with
    | some n => .ok { acc with downloaded := n }
    | none => .error malformed
  | .left =>
    match parseUInt 4294967295 v with
    | some n => .ok { acc with left := n }
    | none => .error malformed
  | .compact =>
    match parseUInt 4294967295 v with
    | some n => .ok { acc with compact := n != 0 }
    | none => .error malformed
  | .no_peer_id =>
    match parseUInt 4294967295 v with
    | some n => .ok { acc with no_peer_id := n != 0 }
    | none => .error malformed
  | .event => .ok { acc with event := string_to_event v }
  | .ip =>
    match parseIpAddr v with
    | some a => .ok { acc with ip := some a }
    | none => .error malformed
  | .numwant =>
    match parseUInt 4294967295 v with
    | some n => .ok { acc with numwant := some n }
    | none => .ok { acc with numwant := some 50 }
  | .key => .ok { acc with key := some v }
  | .trackerid => .ok { acc with trackerid := some v }
  | .other => .ok acc

def annLoop : AnnParams → List (List Nat × List Nat) → Except AnnounceResponse AnnParams
  | acc, [] => .ok acc
  | acc, (k, v) :: rest =>
    match applyParam acc k v with
    | .ok acc2 => annLoop acc2 rest
    | .error e => .error e

/-- The `req_ip` fallback (src/bittorrent.rs lines 203-215).  In the
bracketed branch the source parses `&caps[0]`, the WHOLE regex match
including the brackets, and unwraps — that parse always fails, so the
branch panics; in the other branch a failed parse of the part before the
first `:` is also unwrapped.  `none` models the panic. -/
def deriveReqIp (addr : List Nat) : Option IpAddr :=
  if addr.headD 0 = 91 then none
  else parseIpAddr (addr.takeWhile (fun c => c != 58))

/-- `AnnounceRequest::new`.  The outer `Option` is `none` exactly when the
source panics (the ip unwraps); the `Except` carries the bencoded-failure
result.  `now` stands for `Instant::now()`. -/
def AnnounceRequest.new (now : Nat) (query : List (List Nat × List Nat))
    (req_ip : Option (List Nat)) : Option (Except AnnounceResponse AnnounceRequest) :=
  match annLoop AnnParams.init query with
  | .error e => some (.error e)
  | .ok acc =>
    if acc.info_hash = [] then some (.error malformed)
    else
      let ip : Option IpAddr :=
        match acc.ip with
        | some a => some a
        | none =>
          match req_ip with
          | some addr => deriveReqIp addr
          | none => none
      match ip with
      | none => none
      | some a =>
        let peer : Peer :=
          match a with
          | .V4 i => .V4 { peer_id := acc.peer_string, ip := i, port := acc.port,
                           last_announced := now }
          | .V6 i => .V6 { peer_id := acc.peer_string, ip := i, port := acc.port,
                           last_announced := now }
        some (.ok { info_hash := acc.info_hash, peer := peer, port := acc.port,
                    uploaded := acc.uploaded, downloaded := acc.downloaded,
                    left := acc.left, compact := acc.compact,
                    no_peer_id := acc.no_peer_id, event := acc.event, ip := some a,
                    numwant := acc.numwant, key := acc.key, trackerid := acc.trackerid })

/-! ## Peer sampling (src/storage/mod.rs lines 14-37, 279-294) -/

/-- `PeerList::give_random`: everything when the list is short enough,
otherwise `choose_multiple(numwant)`.  The randomness of
`choose_multiple` is modelled by a caller-supplied permutation `perm` of
the list, of which the first `numwant` elements are taken. -/
def give_random (perm : List Peer → List Peer) (l : List Peer) (numwant : Nat) :
    List Peer :=
  if l.length ≤ numwant then l else (perm l).take numwant

/-- `get_peers`: seeders then leechers of the swarm, sampled. -/
def PeerStore.get_peers (perm : List Peer → List Peer) (st : PeerStore)
    (h : List Nat) (numwant : Nat) : List Peer :=
  let peer_list :=
    match hmGet st h with
    | some sw => sw.seeders ++ sw.leechers
    | none => []
  give_random perm peer_list numwant

/-! ## Announce engine (src/network/mod.rs lines 13-137) -/

def INTERVAL : Nat := 1800

def partitionPeers (l : List Peer) : List Peerv4 × List Peerv6 :=
  (l.filterMap (fun p => match p with | .V4 a => some a | .V6 _ => none),
   l.filterMap (fun p => match p with | .V6 a => some a | .V4 _ => none))

/-- Shared tail of every success branch: sample, split by family, read the
announce stats, build and encode the response. -/
def announceSuccess (perm : List Peer → List Peer) (ps : PeerStore) (ts : TorrentStore)
    (h : List Nat) (nw : Nat) : List Nat :=
  let sampled := PeerStore.get_peers perm ps h nw
  let pp := partitionPeers sampled
  let stats := ts.get_announce_stats h
  encode_announce_response (AnnounceResponse.new INTERVAL stats.1 stats.2 pp.1 pp.2)

/-- `parse_announce`: the event-dispatched store mutations followed by the
response.  `none` models a panic (parser unwraps, or the
`parsed_req.numwant.unwrap()` in every event branch). -/
def parse_announce (perm : List Peer → List Peer) (now : Nat) (data : Stores)
    (query : List (List Nat × List Nat)) (remote : Option (List Nat)) :
    Option (Stores × List Nat) :=
  match AnnounceRequest.new now query remote with
  | none => none
  | some (.error failure) => some (data, encode_announce_response failure)
  | some (.ok req) =>
    match req.event with
    | .started =>
      let ps := data.peer_store.put_leecher req.info_hash req.peer
      let ts := data.torrent_store.new_leech req.info_hash
      match req.numwant with
      | none => none
      | some nw => some (⟨ps, ts⟩, announceSuccess perm ps ts req.info_hash nw)
    | .stopped =>
      let ps := (data.peer_store.remove_seeder req.info_hash req.peer).remove_leecher
        req.info_hash req.peer
      match req.numwant with
      | none => none
      | some nw =>
        some (⟨ps, data.torrent_store⟩,
          announceSuccess perm ps data.torrent_store req.info_hash nw)
    | .completed =>
      let ps := data.peer_store.promote_leecher req.info_hash req.peer
      let ts := data.torrent_store.new_seed req.info_hash
      match req.numwant with
      | none => none
      | some nw => some (⟨ps, ts⟩, announceSuccess perm ps ts req.info_hash nw)
    | .none =>
      let ps := data.peer_store.update_peer req.info_hash req.peer
      match req.numwant with
      | none => none
      | some nw =>
        some (⟨ps, data.torrent_store⟩,
          announceSuccess perm ps data.torrent_store req.info_hash nw)

/-- The peer-store mutation the announce engine performs for each event. -/
def engineStep (e : Event) (h : List Nat) (p : Peer) (st : PeerStore) : PeerStore :=
  match e with
  | .started => st.put_leecher h p
  | .stopped => (st.remove_seeder h p).remove_leecher h p
  | .completed => st.promote_leecher h p
  | .none => st.update_peer h p

def runTrace : List (Event × List Nat × Peer) → PeerStore → PeerStore
  | [], st => st
  | (e, h, p) :: rest, st => runTrace rest (engineStep e h p st)

def seederContains (st : PeerStore) (h : List Nat) (p : Peer) : Bool :=
  match hmGet st h with
  | some sw => hsContains sw.seeders p
  | none => false

/-- A trace is good when no `started` announce is made by a peer that is
currently a seeder of that info-hash. -/
def goodTrace : PeerStore → List (Event × List Nat × Peer) → Bool
  | _, [] => true
  | st, (e, h, p) :: rest =>
    (if e = .started then !seederContains st h p else true) &&
      goodTrace (engineStep e h p st) rest

/-- The seeders and leechers of a swarm are disjoint under peer identity. -/
def swarmSep (sw : Swarm) : Prop :=
  ∀ q ∈ sw.seeders, ∀ r ∈ sw.leechers, Peer.peerEq q r = false

def storeSep (st : PeerStore) : Prop :=
  ∀ h sw, hmGet st h = some sw → swarmSep sw

/-! ## Approval middleware (src/network/middleware/mod.rs lines 51-136) -/

inductive MwOutcome where
  | reject (body : List Nat)
  | pass
  deriving DecidableEq, Repr

structure ClientApprovalMiddleware where
  blacklist_style : Bool
  versioned : Bool
  list : List (List Nat)
  deriving DecidableEq, Repr

/-- The `for` loop keeps the value of the LAST `peer_id` pair. -/
def lastParamValue (key : List Nat) (query : List (List Nat × List Nat)) : List Nat :=
  query.foldl (fun acc kv => if kv.1 = key then kv.2 else acc) []

def unapprovedBody : List Nat :=
  encode_announce_response (AnnounceResponse.failure (asciiBytes "Unapproved client"))

/-- `ClientApprovalMiddleware::call`.  `reject` is the early bencoded
failure response (the inner service is not called), `pass` forwards to
the service.  The string slice `&peer_string[1..3]` (or `[1..7]` when
versioned) panics when the non-empty peer id is shorter than the slice
end, and also when byte offset 1 or the end offset is not a UTF-8
character boundary — Rust's `is_char_boundary` holds at an in-range
offset exactly when the byte there is not a continuation byte (the end
offset equal to the length is always a boundary); `none` models those
panics. -/
def ClientApprovalMiddleware.call (m : ClientApprovalMiddleware)
    (query : List (List Nat × List Nat)) : Option MwOutcome :=
  let peer_string := lastParamValue (asciiBytes "peer_id") query
  if peer_string = [] then some (.reject unapprovedBody)
  else
    let hi : Nat := if m.versioned then 7 else 3
    if peer_string.length < hi then none
    else if isCont (peer_string.getD 1 0) then none
    else if hi < peer_string.length && isCont (peer_string.getD hi 0) then none
    else
      let client_check := (peer_string.drop 1).take (hi - 1)
      if m.blacklist_style then
        if m.list.contains client_check then some (.reject unapprovedBody)
        else some .pass
      else
        if m.list.contains client_check then some .pass
        else some (.reject unapprovedBody)

/-! ## Observation helpers and concrete inputs -/

def emptyPeerStore : PeerStore := []

def emptyStores : Stores :=
  { peer_store := emptyPeerStore, torrent_store := [] }

/-- The peer list `get_peers` samples from: seeders then leechers. -/
def swarmPeerList (st : PeerStore) (h : List Nat) : List Peer :=
  match hmGet st h with
  | some sw => sw.seeders ++ sw.leechers
  | none => []

def swarmSize (st : PeerStore) (h : List Nat) : Nat :=
  (swarmPeerList st h).length

def swarmAt (st : PeerStore) (h : List Nat) : Swarm :=
  match hmGet st h with
  | some sw => sw
  | none => Swarm.new

def parsedNumwant (r : Option (Except AnnounceResponse AnnounceRequest)) :
    Option (Option Nat) :=
  match r with
  | some (.ok a) => some a.numwant
  | _ => none

def parsedEvent (r : Option (Except AnnounceResponse AnnounceRequest)) : Option Event :=
  match r with
  | some (.ok a) => some a.event
  | _ => none

def parsedInfoHash (r : Option (Except AnnounceResponse AnnounceRequest)) :
    Option (List Nat) :=
  match r with
  | some (.ok a) => some a.info_hash
  | _ => none

def h0 : List Nat := asciiBytes "A1B2C3D4E5F6G7H8I9J0"

def t0 : Torrent :=
  { info_hash := h0, complete := 10, downloaded := 34, incomplete := 7,
    balance := 10000000 }

def cPeerA : Peer :=
  .V4 { peer_id := asciiBytes "ABCDEFGHIJKLMNOPQRST", ip := 2130706433, port := 6893,
        last_announced := 0 }

def cPeerB : Peer :=
  .V4 { peer_id := asciiBytes "ABCDEFGHIJKLMNOPQRST", ip := 2130706433, port := 6893,
        last_announced := 1 }

/-- started, completed, started again by the same peer. -/
def c1Trace : List (Event × List Nat × Peer) :=
  [(.started, h0, cPeerA), (.completed, h0, cPeerA), (.started, h0, cPeerA)]

/-- A lifecycle without a `started` from a current seeder. -/
def goodTr : List (Event × List Nat × Peer) :=
  [(.started, h0, cPeerA), (.completed, h0, cPeerA), (.none, h0, cPeerB),
   (.stopped, h0, cPeerA)]

/-- A well-formed announce query that omits `numwant`. -/
def q5 : List (List Nat × List Nat) :=
  [(asciiBytes "info_hash", asciiBytes "aaaaaaaaaaaaaaaaaaaa"),
   (asciiBytes "peer_id", asciiBytes "ABCDEFGHIJKLMNOPQRST"),
   (asciiBytes "port", asciiBytes "6881"),
   (asciiBytes "uploaded", asciiBytes "0"),
   (asciiBytes "downloaded", asciiBytes "0"),
   (asciiBytes "left", asciiBytes "0"),
   (asciiBytes "event", asciiBytes "started"),
   (asciiBytes "ip", asciiBytes "127.0.0.1")]

/-- An announce query whose info_hash decodes to only 5 bytes. -/
def q6 : List (List Nat × List Nat) :=
  [(asciiBytes "info_hash", asciiBytes "abcde"),
   (asciiBytes "peer_id", asciiBytes "ABCDEFGHIJKLMNOPQRST"),
   (asciiBytes "port", asciiBytes "6881"),
   (asciiBytes "ip", asciiBytes "127.0.0.1")]

/-- An announce query that carries no info_hash parameter at all. -/
def q6b : List (List Nat × List Nat) :=
  [(asciiBytes "peer_id", asciiBytes "ABCDEFGHIJKLMNOPQRST"),
   (asciiBytes "port", asciiBytes "6881")]

def wlM : ClientApprovalMiddleware :=
  { blacklist_style := false, versioned := false, list := [asciiBytes "qB"] }

def wlQuery : List (List Nat × List Nat) :=
  [(asciiBytes "peer_id", asciiBytes "-qB4450-123456789012")]

def wlQueryAZ : List (List Nat × List Nat) :=
  [(asciiBytes "peer_id", asciiBytes "-AZ0000-123456789012")]

def shortQuery : List (List Nat × List Nat) :=
  [(asciiBytes "peer_id", asciiBytes "-q")]

/-- A 20-byte peer_id starting with the two-byte character U+00E9 (bytes
195, 169), so byte offset 1 is not a UTF-8 character boundary. -/
def q8bad : List (List Nat × List Nat) :=
  [(asciiBytes "peer_id", 195 :: 169 :: asciiBytes "X0-123456789012345")]

def st7 : PeerStore :=
  [(h0, { seeders := [cPeerA], leechers := [] })]

/-! ## General lemmas -/

theorem peerEq_false_of_key_ne {a b : Peer} (h : a.key ≠ b.key) :
    Peer.peerEq a b = false := by
  cases hb : Peer.peerEq a b
  · rfl
  · exact absurd (Peer.peerEq_iff_key.mp hb) h

theorem peerEq_trans {a b c : Peer} (h1 : Peer.peerEq a b = true)
    (h2 : Peer.peerEq b c = true) : Peer.peerEq a c = true :=
  Peer.peerEq_iff_key.mpr ((Peer.peerEq_iff_key.mp h1).trans (Peer.peerEq_iff_key.mp h2))

theorem hsContains_iff {l : List Peer} {p : Peer} :
    hsContains l p = true ↔ ∃ q ∈ l, Peer.peerEq p q = true := by
  simp [hsContains, List.any_eq_true]

theorem not_contains_peerEq {l : List Peer} {p q : Peer}
    (h : hsContains l p = false) (hq : q ∈ l) : Peer.peerEq q p = false := by
  cases he : Peer.peerEq q p
  · rfl
  · exfalso
    have h2 : hsContains l p = true := hsContains_iff.mpr ⟨q, hq, Peer.peerEq_symm he⟩
    rw [h] at h2
    exact Bool.false_ne_true h2

theorem mem_hsInsert {l : List Peer} {p q : Peer} (h : q ∈ hsInsert l p) :
    q ∈ l ∨ q = p := by
  unfold hsInsert at h
  by_cases hc : hsContains l p = true
  · rw [if_pos hc] at h
    exact Or.inl h
  · rw [if_neg hc] at h
    cases h with
    | head => exact Or.inr rfl
    | tail _ h2 => exact Or.inl h2

theorem add_leecher_seeders (sw : Swarm) (p : Peer) :
    (sw.add_leecher p).seeders = sw.seeders := rfl

theorem add_leecher_leechers (sw : Swarm) (p : Peer) :
    (sw.add_leecher p).leechers = hsInsert sw.leechers p := rfl

/-! ## Separation lemmas for the swarm operations (claim C1) -/

theorem swarmSep_add_leecher {sw : Swarm} {p : Peer} (hsep : swarmSep sw)
    (hns : hsContains sw.seeders p = false) : swarmSep (sw.add_leecher p) := by
  intro q hq r hr
  rw [add_leecher_seeders] at hq
  rw [add_leecher_leechers] at hr
  rcases mem_hsInsert hr with hr2 | rfl
  · exact hsep q hq r hr2
  · exact not_contains_peerEq hns hq

theorem swarmSep_remove_seeder {sw : Swarm} {p : Peer} (hsep : swarmSep sw) :
    swarmSep (sw.remove_seeder p) := by
  intro q hq r hr
  exact hsep q (List.mem_of_mem_filter hq) r hr

theorem swarmSep_remove_leecher {sw : Swarm} {p : Peer} (hsep : swarmSep sw) :
    swarmSep (sw.remove_leecher p) := by
  intro q hq r hr
  exact hsep q hq r (List.mem_of_mem_filter hr)

theorem promote_leecher_found {sw : Swarm} {p q0 : Peer}
    (hf : sw.leechers.find? (fun q => Peer.peerEq p q) = some q0) :
    sw.promote_leecher p =
      { seeders := hsInsert sw.seeders q0,
        leechers := sw.leechers.filter (fun r => !Peer.peerEq p r) } := by
  unfold Swarm.promote_leecher hsTake
  rw [hf]

theorem promote_leecher_not_found {sw : Swarm} {p : Peer}
    (hf : sw.leechers.find? (fun q => Peer.peerEq p q) = none) :
    sw.promote_leecher p = { sw with seeders := hsInsert sw.seeders p } := by
  unfold Swarm.promote_leecher hsTake
  rw [hf]

theorem swarmSep_promote_leecher {sw : Swarm} {p : Peer} (hsep : swarmSep sw) :
    swarmSep (sw.promote_leecher p) := by
  cases hf : sw.leechers.find? (fun q => Peer.peerEq p q) with
  | some q0 =>
    rw [promote_leecher_found hf]
    have hq0 : Peer.peerEq p q0 = true := by
      have := List.find?_some hf
      simpa using this
    intro q hq r hr
    replace hq : q ∈ hsInsert sw.seeders q0 := hq
    replace hr : r ∈ sw.leechers.filter (fun x => !Peer.peerEq p x) := hr
    have hr2 : r ∈ sw.leechers ∧ ¬ Peer.peerEq p r = true := by
      have h3 := List.mem_filter.mp hr
      exact ⟨h3.1, by simpa using h3.2⟩
    rcases mem_hsInsert hq with hq2 | heq
    · exact hsep q hq2 r hr2.1
    · rw [heq]
      cases he : Peer.peerEq q0 r
      · rfl
      · exact absurd (peerEq_trans hq0 he) hr2.2
  | none =>
    rw [promote_leecher_not_found hf]
    have hnone : ∀ x ∈ sw.leechers, ¬ Peer.peerEq p x = true := by
      intro x hx
      have := List.find?_eq_none.mp hf x hx
      simpa using this
    intro q hq r hr
    replace hq : q ∈ hsInsert sw.seeders p := hq
    replace hr : r ∈ sw.leechers := hr
    rcases mem_hsInsert hq with hq2 | heq
    · exact hsep q hq2 r hr
    · rw [heq]
      cases he : Peer.peerEq p r
      · rfl
      · exact absurd he (hnone r hr)

theorem swarmSep_update_seeder {sw : Swarm} {p : Peer} (hsep : swarmSep sw) :
    swarmSep (sw.update_seeder p) := by
  unfold Swarm.update_seeder
  by_cases hc : hsContains sw.seeders p = true
  · rw [if_pos hc]
    obtain ⟨w, hw, hpw⟩ := hsContains_iff.mp hc
    intro q hq r hr
    simp only [hsReplace] at hq
    rcases List.mem_cons.mp hq with rfl | hq2
    · cases he : Peer.peerEq q r
      · rfl
      · exfalso
        have hwr : Peer.peerEq w r = true := peerEq_trans (Peer.peerEq_symm hpw) he
        rw [hsep w hw r hr] at hwr
        exact Bool.false_ne_true hwr
    · exact hsep q (List.mem_of_mem_filter hq2) r hr
  · rw [if_neg hc]
    exact hsep

theorem swarmSep_update_leecher {sw : Swarm} {p : Peer} (hsep : swarmSep sw) :
    swarmSep (sw.update_leecher p) := by
  unfold Swarm.update_leecher
  by_cases hc : hsContains sw.leechers p = true
  · rw [if_pos hc]
    obtain ⟨w, hw, hpw⟩ := hsContains_iff.mp hc
    intro q hq r hr
    simp only [hsReplace] at hr
    rcases List.mem_cons.mp hr with rfl | hr2
    · cases he : Peer.peerEq q r
      · rfl
      · exfalso
        have hqw : Peer.peerEq q w = true := peerEq_trans he hpw
        rw [hsep q hq w hw] at hqw
        exact Bool.false_ne_true hqw
    · exact hsep q hq r (List.mem_of_mem_filter hr2)
  · rw [if_neg hc]
    exact hsep

theorem storeSep_hmUpdate (st : PeerStore) (h : List Nat) (f : Swarm → Swarm)
    (hsep : storeSep st)
    (hf : ∀ sw, hmGet st h = some sw → swarmSep (f sw)) :
    storeSep (hmUpdate st h f) := by
  intro h' sw' hsw'
  rw [hmGet_hmUpdate] at hsw'
  by_cases hh : h' = h
  · rw [if_pos hh] at hsw'
    cases hg : hmGet st h' with
    | none =>
      rw [hg] at hsw'
      cases hsw'
    | some sw =>
      rw [hg] at hsw'
      have h2 : f sw = sw' := Option.some.inj hsw'
      rw [← h2]
      exact hf sw (hh ▸ hg)
  · rw [if_neg hh] at hsw'
    exact hsep h' sw' hsw'

theorem storeSep_engineStep (st : PeerStore) (e : Event) (h : List Nat) (p : Peer)
    (hsep : storeSep st)
    (hgood : e = Event.started → seederContains st h p = false) :
    storeSep (engineStep e h p st) := by
  cases e with
  | started =>
    have hg := hgood rfl
    unfold engineStep PeerStore.put_leecher
    cases hget : hmGet st h with
    | some sw =>
      apply storeSep_hmUpdate st h _ hsep
      intro sw2 hsw2
      have hss : sw2 = sw := by
        rw [hget] at hsw2
        exact (Option.some.inj hsw2).symm
      subst hss
      apply swarmSep_add_leecher (hsep h sw2 hget)
      unfold seederContains at hg
      rw [hget] at hg
      exact hg
    | none =>
      intro h' sw' hsw'
      by_cases hh : h = h'
      · have hsw2 : sw' = Swarm.new.add_leecher p := by
          simp [hmGet, hh] at hsw'
          exact hsw'.symm
        rw [hsw2]
        intro q hq
        rw [add_leecher_seeders] at hq
        simp [Swarm.new] at hq
      · have hrest : hmGet ((h, Swarm.new.add_leecher p) :: st) h' = hmGet st h' := by
          simp [hmGet, hh]
        rw [hrest] at hsw'
        exact hsep h' sw' hsw'
  | stopped =>
    unfold engineStep
    have h1 : storeSep (st.remove_seeder h p) :=
      storeSep_hmUpdate st h _ hsep (fun sw hg => swarmSep_remove_seeder (hsep h sw hg))
    exact storeSep_hmUpdate _ h _ h1 (fun sw hg => swarmSep_remove_leecher (h1 h sw hg))
  | completed =>
    unfold engineStep
    exact storeSep_hmUpdate st h _ hsep
      (fun sw hg => swarmSep_promote_leecher (hsep h sw hg))
  | none =>
    unfold engineStep
    exact storeSep_hmUpdate st h _ hsep
      (fun sw hg => swarmSep_update_leecher (swarmSep_update_seeder (hsep h sw hg)))

theorem storeSep_runTrace (tr : List (Event × List Nat × Peer)) :
    ∀ st : PeerStore, storeSep st → goodTrace st tr = true →
      storeSep (runTrace tr st) := by
  induction tr with
  | nil =>
    intro st hsep _
    exact hsep
  | cons step rest ih =>
    obtain ⟨e, h, p⟩ := step
    intro st hsep hgood
    simp only [goodTrace, Bool.and_eq_true] at hgood
    refine ih _ (storeSep_engineStep st e h p hsep ?_) hgood.2
    intro he
    subst he
    have h1 := hgood.1
    rw [if_pos rfl] at h1
    simpa using h1

/-! ## Claim theorems -/

/-- C10: `GlobalStatistics::sub_seed` leaves `total_seeders` unchanged and
overwrites `total_leechers` with `total_seeders.saturating_sub(1)`
(truncated subtraction on `Nat` is exactly the saturating decrement);
every other counter is untouched. -/
theorem sub_seed_frame (s : GlobalStatistics) :
    (s.sub_seed).total_seeders = s.total_seeders ∧
    (s.sub_seed).total_leechers = s.total_seeders - 1 ∧
    (s.sub_seed).announce_requests = s.announce_requests ∧
    (s.sub_seed).succ_announces = s.succ_announces ∧
    (s.sub_seed).scrapes = s.scrapes :=
  ⟨rfl, rfl, rfl, rfl, rfl⟩

/-- C2 (code bug): with a torrent row present, `new_seed` increments
`complete` and saturating-decrements `incomplete` but leaves
`downloaded` unchanged — the claimed `downloaded` increment never
happens, so a started-then-completed announce sequence leaves
`downloaded` at its prior value 34 instead of 35. -/
theorem new_seed_leaves_downloaded :
    hmGet (TorrentStore.new_seed [(h0, t0)] h0) h0 =
      some { info_hash := h0, complete := 11, downloaded := 34, incomplete := 6,
             balance := 10000000 } ∧
    hmGet (TorrentStore.new_seed (TorrentStore.new_leech [(h0, t0)] h0) h0) h0 =
      some { info_hash := h0, complete := 11, downloaded := 34, incomplete := 7,
             balance := 10000000 } := by
  exact ⟨rfl, rfl⟩

/-- C3 counterexample: two peers with identical `(peer_id, ip, port)` and
timestamps 0 and 1 compare equal, yet inserting both into a swarm set
keeps the single FIRST-inserted element with timestamp 0, not the
later-inserted timestamp 1. -/
theorem add_seeder_keeps_first_timestamp :
    Peer.peerEq cPeerA cPeerB = true ∧
    cPeerA.last_announced = 0 ∧ cPeerB.last_announced = 1 ∧
    ((Swarm.new.add_seeder cPeerA).add_seeder cPeerB).seeders = [cPeerA] := by
  refine ⟨by decide, rfl, rfl, rfl⟩

/-- C3 (amended): peer equality and the hashed fields use exactly
`(peer_id, ip, port)`; inserting two identity-equal peers leaves exactly
one element, namely the first-inserted one with its timestamp, while
`update_seeder` (`HashSet::replace`) is what substitutes the
later-inserted element. -/
theorem peer_identity_set_semantics (a b : Peer) (hk : a.key = b.key) :
    Peer.peerEq a b = true ∧ a.hashFields = b.hashFields ∧
    ((Swarm.new.add_seeder a).add_seeder b).seeders = [a] ∧
    ((Swarm.new.add_seeder a).update_seeder b).seeders = [b] := by
  have he : Peer.peerEq a b = true := Peer.peerEq_iff_key.mpr hk
  have he2 : Peer.peerEq b a = true := Peer.peerEq_symm he
  have h1 : Swarm.new.add_seeder a = { seeders := [a], leechers := [] } := by
    simp [Swarm.new, Swarm.add_seeder, hsInsert, hsContains]
  refine ⟨he, hk, ?_, ?_⟩
  · rw [h1]
    simp [Swarm.add_seeder, hsInsert, hsContains, he2]
  · rw [h1]
    simp [Swarm.update_seeder, hsReplace, hsContains, he2, List.filter]

theorem peer_identity_set_semantics_witness :
    Peer.peerEq cPeerA cPeerB = true ∧ cPeerA.hashFields = cPeerB.hashFields ∧
    ((Swarm.new.add_seeder cPeerA).add_seeder cPeerB).seeders = [cPeerA] ∧
    ((Swarm.new.add_seeder cPeerA).update_seeder cPeerB).seeders = [cPeerB] :=
  peer_identity_set_semantics cPeerA cPeerB (by decide)

/-- C4 (code bug): the `ToBencode` impl for `ScrapeResponse` emits only the
`files` key and drops `failure_reason`, so a malformed scrape request is
answered with the body `d5:filesdee` and not with the failure dict the
spec (and the repo's own `scrape_get_malformed` test) state. -/
theorem scrape_failure_encoding_drops_reason :
    encode_scrape_response
        (ScrapeResponse.failure (asciiBytes "Malformed scrape request"))
      = asciiBytes "d5:filesdee" ∧
    parse_scrape emptyStores [(asciiBytes "bad_stuff", asciiBytes "123")]
      = asciiBytes "d5:filesdee" ∧
    asciiBytes "d5:filesdee" ≠
      asciiBytes "d14:failure_reason24:Malformed scrape requeste" := by
  refine ⟨by decide, by decide, by decide⟩

/-- C8 counterexample: in whitelist non-versioned mode a request whose
20-byte peer_id starts with a two-byte UTF-8 character has a non-empty
peer_id whose tag bytes `[1..3)` are not in the list, yet the middleware
does not answer with the bencoded rejection the claim asserts for every
such request — the slice `&peer_string[1..3]` panics on the character
boundary (modelled `none`). -/
theorem multibyte_peer_id_panics :
    lastParamValue (asciiBytes "peer_id") q8bad ≠ [] ∧
    3 ≤ (lastParamValue (asciiBytes "peer_id") q8bad).length ∧
    wlM.list.contains
      (((lastParamValue (asciiBytes "peer_id") q8bad).drop 1).take 2) = false ∧
    wlM.call q8bad = none := by
  refine ⟨by decide, by decide, by decide, by decide⟩

/-- C8 (amended): with the whitelist (non-versioned) configuration, an
empty peer_id is rejected with the bencoded "Unapproved client" body;
for a peer_id of at least 3 bytes whose byte offsets 1 and 3 fall on
UTF-8 character boundaries (in particular, any ASCII peer_id), the
request passes to the engine exactly when the tag bytes `[1..3)` are in
the configured list and is otherwise rejected with that same body,
never reaching the engine.  Without the boundary condition the source
panics on the slice instead (see the counterexample). -/
theorem whitelist_nonversioned_filter (m : ClientApprovalMiddleware)
    (query : List (List Nat × List Nat))
    (hb : m.blacklist_style = false) (hv : m.versioned = false) :
    (lastParamValue (asciiBytes "peer_id") query = [] →
      m.call query = some (.reject unapprovedBody)) ∧
    (3 ≤ (lastParamValue (asciiBytes "peer_id") query).length →
      isCont ((lastParamValue (asciiBytes "peer_id") query).getD 1 0) = false →
      (3 < (lastParamValue (asciiBytes "peer_id") query).length →
        isCont ((lastParamValue (asciiBytes "peer_id") query).getD 3 0) = false) →
      ((m.list.contains
            (((lastParamValue (asciiBytes "peer_id") query).drop 1).take 2) = true →
          m.call query = some .pass) ∧
       (m.list.contains
            (((lastParamValue (asciiBytes "peer_id") query).drop 1).take 2) = false →
          m.call query = some (.reject unapprovedBody)))) := by
  constructor
  · intro hpb
    simp [ClientApprovalMiddleware.call, hpb]
  · intro hlen hc1 hc3
    have hne : ¬ lastParamValue (asciiBytes "peer_id") query = [] := by
      intro e
      rw [e] at hlen
      simp at hlen
    have hlt : ¬ (lastParamValue (asciiBytes "peer_id") query).length < 3 := by
      omega
    constructor <;> intro hmem <;> simp at hmem <;>
      simp [ClientApprovalMiddleware.call, hne, hv, hb, hlt, hmem] <;>
      exact ⟨by simpa using hc1, fun h3 => by simpa using hc3 h3⟩

theorem whitelist_nonversioned_filter_witness :
    wlM.call wlQuery = some MwOutcome.pass ∧
    wlM.call wlQueryAZ = some (MwOutcome.reject unapprovedBody) :=
  ⟨((whitelist_nonversioned_filter wlM wlQuery rfl rfl).2
      (by decide) (by decide) (by decide)).1 (by decide),
   ((whitelist_nonversioned_filter wlM wlQueryAZ rfl rfl).2
      (by decide) (by decide) (by decide)).2 (by decide)⟩

/-- C9: a non-empty peer_id shorter than the slice end (3 bytes, 7 in
versioned mode) makes `ClientApprovalMiddleware::call` panic on the byte
slice instead of producing the rejection response. -/
theorem short_peer_id_panics (m : ClientApprovalMiddleware)
    (query : List (List Nat × List Nat))
    (hne : lastParamValue (asciiBytes "peer_id") query ≠ [])
    (hlen : (lastParamValue (asciiBytes "peer_id") query).length <
      (if m.versioned then 7 else 3)) :
    m.call query = none := by
  simp [ClientApprovalMiddleware.call, hne, hlen]

theorem short_peer_id_panics_witness :
    wlM.call shortQuery = none :=
  short_peer_id_panics wlM shortQuery (by decide) (by decide)

/-- C7: `get_peers(h, numwant)` returns exactly
`min(numwant, |seeders(h)| + |leechers(h)|)` peers, each a member of the
swarm's peer list, and drawn without replacement (the result is a
sub-permutation of seeders ++ leechers).  `perm` abstracts the RNG of
`choose_multiple`, whose contract is to deliver some permutation of the
list, of which a prefix is kept. -/
theorem get_peers_spec (perm : List Peer → List Peer)
    (hperm : ∀ l, (perm l).Perm l)
    (st : PeerStore) (h : List Nat) (n : Nat) :
    (PeerStore.get_peers perm st h n).length = min n (swarmSize st h) ∧
    (∀ p ∈ PeerStore.get_peers perm st h n, p ∈ swarmPeerList st h) ∧
    (PeerStore.get_peers perm st h n).Subperm (swarmPeerList st h) := by
  have hpl : PeerStore.get_peers perm st h n = give_random perm (swarmPeerList st h) n :=
    rfl
  rw [hpl]
  unfold give_random swarmSize
  by_cases hle : (swarmPeerList st h).length ≤ n
  · rw [if_pos hle]
    refine ⟨by omega, fun p hp => hp, List.Subperm.refl _⟩
  · rw [if_neg hle]
    have hlen : (perm (swarmPeerList st h)).length = (swarmPeerList st h).length :=
      (hperm _).length_eq
    refine ⟨?_, ?_, ?_⟩
    · rw [List.length_take, hlen]
    · intro p hp
      exact (hperm _).mem_iff.mp (List.mem_of_mem_take hp)
    · exact ((List.take_sublist _ _).subperm).trans (hperm _).subperm

theorem get_peers_spec_witness :
    (PeerStore.get_peers (fun l => l) st7 h0 1).length = min 1 (swarmSize st7 h0) ∧
    (∀ p ∈ PeerStore.get_peers (fun l => l) st7 h0 1, p ∈ swarmPeerList st7 h0) ∧
    (PeerStore.get_peers (fun l => l) st7 h0 1).Subperm (swarmPeerList st7 h0) :=
  get_peers_spec (fun l => l) (fun l => List.Perm.refl l) st7 h0 1

/-- C5 (code bug): the well-formed announce `q5`, which omits `numwant`,
parses successfully with `numwant = None` and `event = Started`, and
`parse_announce` then reaches `parsed_req.numwant.unwrap()` on `None`
and panics (modelled by the `none` result) instead of applying a 30-50
default and answering. -/
theorem missing_numwant_panics :
    parsedNumwant (AnnounceRequest.new 0 q5 Option.none) = some Option.none ∧
    parsedEvent (AnnounceRequest.new 0 q5 Option.none) = some Event.started ∧
    (parse_announce (fun l => l) 0 emptyStores q5 Option.none).isNone = true := by
  refine ⟨by decide, by decide, by decide⟩

/-- `applyParam` on the `info_hash` key: decode-and-validate. -/
theorem applyParam_ih (acc : AnnParams) (k v : List Nat)
    (hk : classifyKey k = ParamKey.info_hash) :
    applyParam acc k v =
      (if utf8Valid (percentDecode v) then .ok { acc with info_hash := percentDecode v }
       else .error malformed) := by
  simp only [applyParam, hk]

/-- `applyParam` on any other key either fails with the malformed-request
failure or leaves `info_hash` unchanged. -/
theorem applyParam_other (acc : AnnParams) (k v : List Nat)
    (hk : classifyKey k ≠ ParamKey.info_hash) :
    applyParam acc k v = .error malformed ∨
      ∃ acc2, applyParam acc k v = .ok acc2 ∧ acc2.info_hash = acc.info_hash := by
  cases hc : classifyKey k with
  | info_hash => exact absurd hc hk
  | peer_id =>
    right
    exact ⟨{ acc with peer_string := v }, by simp only [applyParam, hc], rfl⟩
  | port =>
    cases hp : parseUInt 65535 v with
    | some n =>
      right
      exact ⟨{ acc with port := n }, by simp only [applyParam, hc, hp], rfl⟩
    | none =>
      left
      simp only [applyParam, hc, hp]
  | uploaded =>
    cases hp : parseUInt 4294967295 v with
    | some n =>
      right
      exact ⟨{ acc with uploaded := n }, by simp only [applyParam, hc, hp], rfl⟩
    | none =>
      left
      simp only [applyParam, hc, hp]
  | downloaded =>
    cases hp : parseUInt 4294967295 v with
    | some n =>
      right
      exact ⟨{ acc with downloaded := n }, by simp only [applyParam, hc, hp], rfl⟩
    | none =>
      left
      simp only [applyParam, hc, hp]
  | left =>
    cases hp : parseUInt 4294967295 v with
    | some n =>
      right
      exact ⟨{ acc with left := n }, by simp only [applyParam, hc, hp], rfl⟩
    | none =>
      left
      simp only [applyParam, hc, hp]
  | compact =>
    cases hp : parseUInt 4294967295 v with
    | some n =>
      right
      exact ⟨{ acc with compact := n != 0 }, by simp only [applyParam, hc, hp], rfl⟩
    | none =>
      left
      simp only [applyParam, hc, hp]
  | no_peer_id =>
    cases hp : parseUInt 4294967295 v with
    | some n =>
      right
      exact ⟨{ acc with no_peer_id := n != 0 }, by simp only [applyParam, hc, hp], rfl⟩
    | none =>
      left
      simp only [applyParam, hc, hp]
  | event =>
    right
    exact ⟨{ acc with event := string_to_event v }, by simp only [applyParam, hc], rfl⟩
  | ip =>
    cases hp : parseIpAddr v with
    | some a =>
      right
      exact ⟨{ acc with ip := some a }, by simp only [applyParam, hc, hp], rfl⟩
    | none =>
      left
      simp only [applyParam, hc, hp]
  | numwant =>
    cases hp : parseUInt 4294967295 v with
    | some n =>
      right
      exact ⟨{ acc with numwant := some n }, by simp only [applyParam, hc, hp], rfl⟩
    | none =>
      right
      exact ⟨{ acc with numwant := some 50 }, by simp only [applyParam, hc, hp], rfl⟩
  | key =>
    right
    exact ⟨{ acc with key := some v }, by simp only [applyParam, hc], rfl⟩
  | trackerid =>
    right
    exact ⟨{ acc with trackerid := some v }, by simp only [applyParam, hc], rfl⟩
  | other =>
    right
    exact ⟨acc, by simp only [applyParam, hc], rfl⟩

theorem annLoop_keeps_empty (query : List (List Nat × List Nat)) :
    ∀ acc : AnnParams, acc.info_hash = [] →
      (∀ kv ∈ query, classifyKey kv.1 = ParamKey.info_hash →
        utf8Valid (percentDecode kv.2) = true → percentDecode kv.2 = []) →
      annLoop acc query = .error malformed ∨
        ∃ acc2, annLoop acc query = .ok acc2 ∧ acc2.info_hash = [] := by
  induction query with
  | nil =>
    intro acc hacc _
    right
    exact ⟨acc, rfl, hacc⟩
  | cons kv rest ih =>
    obtain ⟨k, v⟩ := kv
    intro acc hacc hq
    have hrest : ∀ kv ∈ rest, classifyKey kv.1 = ParamKey.info_hash →
        utf8Valid (percentDecode kv.2) = true → percentDecode kv.2 = [] :=
      fun kv hkv => hq kv (List.mem_cons_of_mem _ hkv)
    simp only [annLoop]
    by_cases hk : classifyKey k = ParamKey.info_hash
    · rw [applyParam_ih acc k v hk]
      by_cases hu : utf8Valid (percentDecode v) = true
      · rw [if_pos hu]
        have hempty : percentDecode v = [] := hq (k, v) (List.mem_cons_self _ _) hk hu
        exact ih { acc with info_hash := percentDecode v } (by simp [hempty]) hrest
      · rw [if_neg hu]
        left
        rfl
    · rcases applyParam_other acc k v hk with herr | ⟨acc2, hok, hsame⟩
      · rw [herr]
        left
        rfl
      · rw [hok]
        exact ih acc2 (hsame.trans hacc) hrest

/-- C6 (amended): `AnnounceRequest` parsing returns the bencoded
"Malformed request" failure whenever every `info_hash` parameter decodes
to an empty byte string or to invalid UTF-8 — in particular whenever the
parameter is absent.  No 20-byte length check exists: the decoded value
is accepted at any nonzero length (see the counterexample). -/
theorem info_hash_required (now : Nat) (query : List (List Nat × List Nat))
    (req_ip : Option (List Nat))
    (hih : ∀ kv ∈ query, classifyKey kv.1 = ParamKey.info_hash →
        utf8Valid (percentDecode kv.2) = true → percentDecode kv.2 = []) :
    AnnounceRequest.new now query req_ip = some (.error malformed) := by
  rcases annLoop_keeps_empty query AnnParams.init rfl hih with herr | ⟨acc2, hok, hempty⟩
  · simp only [AnnounceRequest.new, herr]
  · simp [AnnounceRequest.new, hok, hempty]

theorem info_hash_required_witness :
    AnnounceRequest.new 0 q6b Option.none = some (Except.error malformed) :=
  info_hash_required 0 q6b Option.none (by decide)

/-- C6 counterexample: an announce whose info_hash decodes to the 5-byte
value "abcde" parses successfully, refuting the claim that a non-20-byte
info_hash never yields a successful `AnnounceRequest`. -/
theorem five_byte_info_hash_accepted :
    parsedInfoHash (AnnounceRequest.new 0 q6 Option.none) = some (asciiBytes "abcde") ∧
    (asciiBytes "abcde").length = 5 := by
  refine ⟨by decide, by decide⟩

/-- C1 counterexample: the engine-driven sequence started, completed,
started again by one peer leaves it in BOTH seeders and leechers of the
same info-hash (`put_leecher` does not remove a seeder), refuting the
claimed at-most-one-set invariant for arbitrary announce sequences. -/
theorem started_after_completed_double_membership :
    hsContains (swarmAt (runTrace c1Trace emptyPeerStore) h0).seeders cPeerA = true ∧
    hsContains (swarmAt (runTrace c1Trace emptyPeerStore) h0).leechers cPeerA = true := by
  refine ⟨by decide, by decide⟩

/-- C1 (amended): starting from a store whose swarms are
seeder/leecher-disjoint, after ANY engine-driven operation sequence in
which no `started` announce is made by a peer that is currently a seeder
of that info-hash, every peer is a member of at most one of seeders(h)
and leechers(h). -/
theorem swarm_membership_exclusive (st : PeerStore)
    (tr : List (Event × List Nat × Peer))
    (hsep : storeSep st) (hgood : goodTrace st tr = true)
    (h : List Nat) (sw : Swarm) (hsw : hmGet (runTrace tr st) h = some sw) (p : Peer) :
    ¬ (hsContains sw.seeders p = true ∧ hsContains sw.leechers p = true) := by
  intro hcon
  obtain ⟨q, hq, hpq⟩ := hsContains_iff.mp hcon.1
  obtain ⟨r, hr, hpr⟩ := hsContains_iff.mp hcon.2
  have hsep2 := storeSep_runTrace tr st hsep hgood h sw hsw
  have hqr : Peer.peerEq q r = true := peerEq_trans (Peer.peerEq_symm hpq) hpr
  rw [hsep2 q hq r hr] at hqr
  exact Bool.false_ne_true hqr

theorem swarm_membership_exclusive_witness :
    ¬ (hsContains (Swarm.mk [] []).seeders cPeerA = true ∧
       hsContains (Swarm.mk [] []).leechers cPeerA = true) :=
  swarm_membership_exclusive emptyPeerStore goodTr
    (fun _ _ hsw => nomatch hsw) (by decide) h0 (Swarm.mk [] []) (by decide) cPeerA

end Tyto
